import Mathlib

/-!
# Verification of the aleo-std instrumentation/timer core

This file embeds the timer subsystem (`src/timer/src/lib.rs`) and the
statement-rewriting attribute (`src/timed/src/lib.rs`) of the aleo-std
repository, and proves the specification's claims about them.

Modelling conventions:
* `Instant` timestamps and `Duration`s are natural numbers of nanoseconds;
  `Instant::now()` becomes an explicit `now : Nat` argument threaded into each
  operation, and `a.elapsed()` at time `now` is `now - a`.
* The process-wide `NUM_INDENT : AtomicUsize` is a `Nat` kept below `2^64`;
  `fetch_add(1)` and `fetch_sub(1)` wrap modulo `2^64` exactly as `usize`
  arithmetic does.
* Printing to stdout is modelled by appending structured `Line` values to an
  output trace carried in the state.
-/

namespace AleoStd

/-- `2^64`: the modulus of `usize` / `AtomicUsize` arithmetic. -/
def USIZE : Nat := 18446744073709551616

/-- `AtomicUsize::fetch_add(1, ..)`'s effect on the stored value (wrapping). -/
def wrapAdd1 (n : Nat) : Nat := (n + 1) % USIZE

/-- `AtomicUsize::fetch_sub(1, ..)`'s effect on the stored value (wrapping). -/
def wrapSub1 (n : Nat) : Nat := (n + (USIZE - 1)) % USIZE

/-- Rust's `{:0>3}` format specifier applied to a number: render it in decimal
and left-pad with `'0'` to a minimum width of 3. -/
def pad3 (n : Nat) : String :=
  String.mk (List.replicate (3 - (toString n).length) '0') ++ toString n

/-- `Timer::elapsed` (src/timer/src/lib.rs lines 110-125): renders a `Duration`
of `ns` nanoseconds with unit auto-scaling.  `Timed::mark_elapsed`
(src/timed/src/lib.rs lines 92-106) contains a textually identical rendering
block.  In Rust: `secs = elapsed.as_secs()`, `millis = elapsed.subsec_millis()`,
`micros = elapsed.subsec_micros() % 1000`, `nanos = elapsed.subsec_nanos() % 1000`. -/
def elapsedFormat (ns : Nat) : String :=
  let secs := ns / 1000000000
  let subsecNanos := ns % 1000000000
  let millis := subsecNanos / 1000000
  let micros := (subsecNanos / 1000) % 1000
  let nanos := subsecNanos % 1000
  if secs ≠ 0 then
    toString secs ++ "." ++ pad3 millis ++ "s"
  else if millis > 0 then
    toString millis ++ "." ++ pad3 micros ++ "ms"
  else if micros > 0 then
    toString micros ++ "." ++ pad3 nanos ++ "µs"
  else
    toString subsecNanos ++ "ns"

/-- One `Timer` instance (src/timer/src/lib.rs, `struct Timer`).  The fields
`module_path`, `file` and `line` only feed the Start line's metadata and are
kept as data; the clock-dependent fields hold nanosecond timestamps. -/
structure Timer where
  startTime : Nat
  lastLapTime : Nat
  modulePath : String
  file : String
  line : Nat
  name : String
  indent : Nat
  finished : Bool
  extraInfo : Option String
deriving DecidableEq, Repr

/-- The `user_message` computed at the top of `Timer::format`
(src/timer/src/lib.rs lines 175-181), from the timer's name, its optional
`extra_info`, and the optional `format_args` of the call. -/
def userMessage (name : String) (extraInfo : Option String) (args : Option String) : String :=
  match extraInfo, args with
  | some info, some a => name ++ ", " ++ info ++ ", " ++ a
  | some info, none => name ++ ", " ++ info
  | none, some a => name ++ ", " ++ a
  | none, none => name

/-- One line printed by `Timer::print`.  The three constructors correspond to
the three `TimerState` variants; each records the indentation level used by
`Timer::format`, the `user_message`, and (for Lap/Finish) the nanosecond
duration that `format` renders via the duration-formatting block. -/
inductive Line where
  | start (indent : Nat) (message : String)
  | lap (indent : Nat) (message : String) (delta : Nat)
  | finishLine (indent : Nat) (message : String) (delta : Nat)
deriving DecidableEq, Repr

/-- The process-wide state of the timer subsystem: the `NUM_INDENT` atomic
counter, every `Timer` constructed so far (index = creation order; a timer
stays in the list after it is finished, as its memory does), and the lines
printed to stdout so far. -/
structure Sys where
  numIndent : Nat
  timers : List Timer
  output : List Line
deriving DecidableEq, Repr

/-- The state at process start: `NUM_INDENT` is initialized to 0, nothing
constructed, nothing printed. -/
def Sys.init : Sys := { numIndent := 0, timers := [], output := [] }

/-- `Timer::new` (src/timer/src/lib.rs lines 87-104): captures `start_time`
(also seeding `last_lap_time`), reads the current `NUM_INDENT` value as this
instance's `indent` (`NUM_INDENT.fetch_add(0, Relaxed)` returns the stored
value unchanged), prints the Start line, and only then increments `NUM_INDENT`
by one (wrapping, as `usize` does). -/
def Sys.newTimer (st : Sys) (now : Nat) (file modulePath : String) (line : Nat)
    (name : String) (extraInfo : Option String) : Sys :=
  let t : Timer :=
    { startTime := now
      lastLapTime := now
      modulePath := modulePath
      file := file
      line := line
      name := name
      indent := st.numIndent
      finished := false
      extraInfo := extraInfo }
  { numIndent := wrapAdd1 st.numIndent
    timers := st.timers ++ [t]
    output := st.output ++ [Line.start t.indent (userMessage name extraInfo none)] }

/-- `Timer::lap` = `print(TimerState::Lap, args)`; the `TimerState::Lap` arm of
`Timer::format` (src/timer/src/lib.rs lines 199-214) renders the delta since
`last_lap_time` at indentation `self.indent + 1`, then overwrites
`last_lap_time` with `Instant::now()`.  A timer id outside the constructed
range has no counterpart in the Rust program and is treated as a no-op. -/
def Sys.lap (st : Sys) (id : Nat) (now : Nat) (args : Option String) : Sys :=
  match st.timers[id]? with
  | none => st
  | some t =>
    { st with
      timers := st.timers.set id { t with lastLapTime := now }
      output := st.output ++
        [Line.lap (t.indent + 1) (userMessage t.name t.extraInfo args) (now - t.lastLapTime)] }

/-- `Timer::finish` (src/timer/src/lib.rs lines 159-166): if the `finished`
flag is not yet set, decrement `NUM_INDENT` by one (wrapping), store `true`
into `finished`, and print the Finish line, whose duration is
`self.start_time.elapsed()` — measured from construction, not from the last
lap.  If the flag is already set, nothing happens. -/
def Sys.finish (st : Sys) (id : Nat) (now : Nat) (args : Option String) : Sys :=
  match st.timers[id]? with
  | none => st
  | some t =>
    if t.finished then st
    else
      { numIndent := wrapSub1 st.numIndent
        timers := st.timers.set id { t with finished := true }
        output := st.output ++
          [Line.finishLine t.indent (userMessage t.name t.extraInfo args) (now - t.startTime)] }

/-- `impl Drop for Timer` (src/timer/src/lib.rs lines 252-258):
`fn drop(&mut self) { self.finish(None); }`. -/
def Sys.dropTimer (st : Sys) (id : Nat) (now : Nat) : Sys :=
  st.finish id now none

/-- One operation of a client program against the timer subsystem, with the
wall-clock instant at which it runs. -/
inductive Op where
  | new (now : Nat) (file modulePath : String) (line : Nat) (name : String)
      (extraInfo : Option String)
  | lap (id : Nat) (now : Nat) (args : Option String)
  | finish (id : Nat) (now : Nat) (args : Option String)
  | dropTimer (id : Nat) (now : Nat)
deriving DecidableEq, Repr

/-- Interpretation of one operation. -/
def Sys.applyOp (st : Sys) : Op → Sys
  | .new now file modulePath line name info => st.newTimer now file modulePath line name info
  | .lap id now args => st.lap id now args
  | .finish id now args => st.finish id now args
  | .dropTimer id now => st.dropTimer id now

/-- Running a whole program from process start. -/
def Sys.run (ops : List Op) : Sys := ops.foldl Sys.applyOp Sys.init

/-- The number of constructed-but-not-yet-finalized timers. -/
def Sys.active (st : Sys) : Nat := st.timers.countP (fun t => !t.finished)

/-- The Finish lines among a list of printed lines. -/
def finishLines (out : List Line) : List Line :=
  out.filter (fun l => match l with | .finishLine _ _ _ => true | _ => false)

/-!
## Fine-grained model of `Timer::finish` for the concurrency claim

`Timer::finish` (src/timer/src/lib.rs lines 159-166) is compiled from four
distinct atomic accesses, in source order:

1. `self.finished.load(Ordering::SeqCst)` — the guard of the `if`;
2. `NUM_INDENT.fetch_sub(1, Ordering::Relaxed)`;
3. `self.finished.store(true, Ordering::SeqCst)`;
4. `self.print(TimerState::Finish, args)`.

Each is individually atomic, but the load (1) and the store (3) are separate
operations, not one compare-and-set.  To examine what this means for two
concurrent `finish` calls on the same timer we interleave the four micro-ops
of two threads over shared state. -/

/-- The four atomic micro-operations in the body of `Timer::finish`. -/
inductive MicroOp where
  | loadFinished
  | decrIndent
  | storeFinished
  | printFinish
deriving DecidableEq, Repr

/-- `Timer::finish`'s body as its sequence of micro-operations. -/
def finishBody : List MicroOp := [.loadFinished, .decrIndent, .storeFinished, .printFinish]

/-- The shared state the micro-operations touch: the timer's `finished` flag,
the `NUM_INDENT` counter, and how many Finish lines have been printed. -/
structure ConcState where
  finished : Bool
  numIndent : Nat
  printed : Nat
deriving DecidableEq, Repr

/-- Execute one micro-operation of a thread whose remaining program is `ops`;
returns the new shared state and the thread's remaining program.  When the
load sees `finished = true`, the `if` guard fails and the rest of the body is
skipped. -/
def microStep (st : ConcState) (ops : List MicroOp) : ConcState × List MicroOp :=
  match ops with
  | [] => (st, [])
  | .loadFinished :: rest => if st.finished then (st, []) else (st, rest)
  | .decrIndent :: rest => ({ st with numIndent := wrapSub1 st.numIndent }, rest)
  | .storeFinished :: rest => ({ st with finished := true }, rest)
  | .printFinish :: rest => ({ st with printed := st.printed + 1 }, rest)

/-- Run two threads `a` and `b` under a schedule: `true` steps thread `a`,
`false` steps thread `b`. -/
def runInterleaved : ConcState → List MicroOp → List MicroOp → List Bool → ConcState
  | st, _, _, [] => st
  | st, a, b, true :: sched =>
    let p := microStep st a
    runInterleaved p.1 p.2 b sched
  | st, a, b, false :: sched =>
    let p := microStep st b
    runInterleaved p.1 a p.2 sched

/-- A schedule that runs thread `a`'s four micro-ops to completion, then
thread `b`'s. -/
def serialAB : List Bool := [true, true, true, true, false, false, false, false]

/-- A schedule that runs thread `b`'s four micro-ops to completion, then
thread `a`'s. -/
def serialBA : List Bool := [false, false, false, false, true, true, true, true]

/-- The racy schedule: both threads execute their load before either executes
its store. -/
def racySchedule : List Bool := [true, false, true, true, true, false, false, false]

/-!
## Model of the `timed` attribute's statement rewriter (src/timed/src/lib.rs)

A `syn::Stmt` is modelled by its rendered token text (the only thing the
rewrite inspects of an original statement: `to_token_stream().to_string()`);
the statements the rewrite synthesizes are separate constructors. -/

/-- `const LENGTH: usize = 45;` (src/timed/src/lib.rs line 124). -/
def LENGTH : Nat := 45

/-- `.replace('\n', " ")`: every embedded newline becomes a space (a
character-by-character map, since the replacement of the single character
`'\n'` is the single-character string `" "`). -/
def replaceNewlines (s : String) : String :=
  String.mk (s.data.map (fun c => if c = '\n' then ' ' else c))

/-- `truncate` (src/timed/src/lib.rs lines 51-61): render the statement with
newlines collapsed to spaces; if its character count exceeds `len`, keep the
first `len` characters and append `"..."`, otherwise return it as-is.
Rust counts `chars()`, so the model counts characters, not bytes. -/
def truncate (stmt : String) (len : Nat) : String :=
  let string := replaceNewlines stmt
  if len < string.length then String.mk (string.toList.take len) ++ "..."
  else string

/-- A statement of the rewritten function body.  The four `setup*`
constructors stand for the four statements of the `setup` block parsed in
`rewrite_stmts` (the `struct Timed` item, the `impl Timed` item, the
`impl Drop for Timed` item, and `let mut timed = Timed::new(#name);`);
`orig` is an original statement carried over unchanged; `markElapsed short`
is the synthesized `timed.mark_elapsed(#short);`; `letReturnStmt s` is the
synthesized `let return_stmt = { #s };`; `retReturnStmt` is the synthesized
`return return_stmt;`. -/
inductive RStmt where
  | setupStructTimed
  | setupImplTimed
  | setupImplDropTimed
  | setupLetTimed (name : String)
  | orig (text : String)
  | markElapsed (short : String)
  | letReturnStmt (text : String)
  | retReturnStmt
deriving DecidableEq, Repr

/-- The statements of the `setup` block, seeded with the function's name. -/
def setupStmts (name : String) : List RStmt :=
  [.setupStructTimed, .setupImplTimed, .setupImplDropTimed, .setupLetTimed name]

/-- The body of the `for (index, stmt) in stmts.drain(..).enumerate()` loop of
`rewrite_stmts`: push the original statement, then one
`timed.mark_elapsed("L{index}: {truncated}");` call, and advance the index. -/
def pushMarked (acc : List RStmt × Nat) (stmt : String) : List RStmt × Nat :=
  let short := truncate stmt LENGTH
  let short := "L" ++ toString acc.2 ++ ": " ++ short
  (acc.1 ++ [RStmt.orig stmt, RStmt.markElapsed short], acc.2 + 1)

/-- `rewrite_stmts` (src/timed/src/lib.rs lines 126-154): start from the
setup block's statements; `stmts.pop()` detaches the last statement; the
drain loop appends each remaining statement followed by its mark-call; if a
last statement existed, append `let return_stmt = { ... };`, its mark-call
(without the `L{index}: ` prefix), and `return return_stmt;`. -/
def rewrite_stmts (name : String) (stmts : List String) : List RStmt :=
  let new_stmts := setupStmts name
  let last := stmts.getLast?
  let new_stmts := ((stmts.dropLast).foldl pushMarked (new_stmts, 0)).1
  match last with
  | some stmt =>
    new_stmts ++
      [RStmt.letReturnStmt stmt, RStmt.markElapsed (truncate stmt LENGTH), RStmt.retReturnStmt]
  | none => new_stmts

/-- Extracts the original statement text carried by a rewritten statement:
an `orig` statement is the original itself, and the `letReturnStmt` binding
carries the original last statement inside its braces. -/
def origText : RStmt → Option String
  | .orig s => some s
  | .letReturnStmt s => some s
  | _ => none

/-- The three syntactic shapes `timed` tries to parse its item as, plus a
fourth constructor for every other construct.  A `TraitItemFn` carries its
optional default body (`fun.default`); the model of
`parse::<T>(item)` is the evident pattern match on the shape. -/
inductive MacroInput where
  | itemFn (name : String) (stmts : List String)
  | traitItemFn (name : String) (defaultBody : Option (List String))
  | implItemFn (name : String) (stmts : List String)
  | otherConstruct
deriving DecidableEq, Repr

/-- Outcome of the attribute macro: a rewritten statement list, or a panic
message surfaced as a build failure. -/
inductive MacroResult where
  | rewritten (stmts : List RStmt)
  | buildFailure (msg : String)
deriving DecidableEq, Repr

/-- `timed` (src/timed/src/lib.rs lines 24-46): a plain `ItemFn`, a
`TraitItemFn` with a default body, and an `ImplItemFn` have their statements
rewritten; a `TraitItemFn` without a default body falls through (and a
bodiless method signature cannot parse as an `ImplItemFn`), reaching the
``panic!("`timed` only works on functions")`` like every other construct. -/
def timed : MacroInput → MacroResult
  | .itemFn name stmts => .rewritten (rewrite_stmts name stmts)
  | .traitItemFn name (some body) => .rewritten (rewrite_stmts name body)
  | .traitItemFn _ none => .buildFailure "`timed` only works on functions"
  | .implItemFn name stmts => .rewritten (rewrite_stmts name stmts)
  | .otherConstruct => .buildFailure "`timed` only works on functions"

/-!
## Helper lemmas
-/

theorem countP_set_balance {α} (p : α → Bool) :
    ∀ (l : List α) (i : Nat) (a b : α), l[i]? = some a →
      (l.set i b).countP p + (if p a then 1 else 0) = l.countP p + (if p b then 1 else 0) := by
  intro l
  induction l with
  | nil => intro i a b h; simp at h
  | cons x xs ih =>
    intro i a b h
    cases i with
    | zero =>
      simp only [List.getElem?_cons_zero, Option.some.injEq] at h
      subst h
      simp only [List.set, List.countP_cons]
      omega
    | succ n =>
      simp only [List.getElem?_cons_succ] at h
      have := ih n a b h
      simp only [List.set, List.countP_cons]
      omega

theorem getElem?_set_same {α} (l : List α) (i : Nat) (a b : α) (h : l[i]? = some a) :
    (l.set i b)[i]? = some b := by
  have hi : i < l.length := (List.getElem?_eq_some.mp h).1
  simp [List.getElem?_set_self, hi]

/-- `Sys.newTimer` appends one unfinished timer, so the active count rises by
exactly one; the appended timer records `st.numIndent` as its `indent` and
seeds `last_lap_time` with `start_time`. -/
theorem newTimer_effects (st : Sys) (now : Nat) (file modulePath : String) (line : Nat)
    (name : String) (info : Option String) :
    (st.newTimer now file modulePath line name info).active = st.active + 1
    ∧ (st.newTimer now file modulePath line name info).numIndent = wrapAdd1 st.numIndent
    ∧ (st.newTimer now file modulePath line name info).timers[st.timers.length]? =
        some (Timer.mk now now modulePath file line name st.numIndent false info) := by
  refine ⟨?_, rfl, ?_⟩
  · simp [Sys.newTimer, Sys.active, List.countP_append, List.countP_cons]
  · simp only [Sys.newTimer]
    exact List.getElem?_concat_length _ _

theorem lap_active_indent (st : Sys) (id now : Nat) (args : Option String) :
    (st.lap id now args).active = st.active ∧ (st.lap id now args).numIndent = st.numIndent := by
  unfold Sys.lap
  cases hid : st.timers[id]? with
  | none => exact ⟨rfl, rfl⟩
  | some t =>
    refine ⟨?_, rfl⟩
    have hbal := countP_set_balance (fun u => !u.finished) st.timers id t
      { t with lastLapTime := now } hid
    simp only [Sys.active]
    simp at hbal
    omega

theorem finish_active_indent (st : Sys) (id now : Nat) (args : Option String)
    (h1 : st.numIndent = st.active) (hb : st.active < USIZE) :
    (st.finish id now args).numIndent = (st.finish id now args).active
    ∧ (st.finish id now args).active ≤ st.active := by
  unfold Sys.finish
  cases hid : st.timers[id]? with
  | none => exact ⟨h1, le_refl _⟩
  | some t =>
    dsimp only
    by_cases hf : t.finished = true
    · rw [if_pos hf]
      exact ⟨h1, le_refl _⟩
    · rw [if_neg hf]
      have hf0 : t.finished = false := by
        cases hft : t.finished
        · rfl
        · exact absurd hft hf
      have hbal := countP_set_balance (fun u => !u.finished) st.timers id t
        { t with finished := true } hid
      simp [hf0] at hbal
      simp only [Sys.active] at h1 hb ⊢
      constructor
      · rw [h1]
        simp only [wrapSub1, USIZE] at hb ⊢
        omega
      · omega

theorem applyOp_invariant_step (st : Sys) (op : Op)
    (h1 : st.numIndent = st.active) (hb : st.active + 1 < USIZE) :
    (st.applyOp op).numIndent = (st.applyOp op).active
    ∧ (st.applyOp op).active ≤ st.active + 1 := by
  cases op with
  | new now file modulePath line name info =>
    have h := newTimer_effects st now file modulePath line name info
    simp only [Sys.applyOp]
    refine ⟨?_, by omega⟩
    rw [h.2.1, h.1, h1, wrapAdd1, Nat.mod_eq_of_lt (by omega)]
  | lap id now args =>
    have h := lap_active_indent st id now args
    simp only [Sys.applyOp]
    rw [h.1, h.2]
    exact ⟨h1, by omega⟩
  | finish id now args =>
    have h := finish_active_indent st id now args h1 (by omega)
    simp only [Sys.applyOp]
    exact ⟨h.1, by omega⟩
  | dropTimer id now =>
    have h := finish_active_indent st id now none h1 (by omega)
    simp only [Sys.applyOp, Sys.dropTimer]
    exact ⟨h.1, by omega⟩

theorem foldl_invariant (ops : List Op) : ∀ (st : Sys),
    st.numIndent = st.active → st.active + ops.length < USIZE →
    (ops.foldl Sys.applyOp st).numIndent = (ops.foldl Sys.applyOp st).active := by
  induction ops with
  | nil => intro st h1 _; exact h1
  | cons op rest ih =>
    intro st h1 hb
    simp only [List.foldl_cons, List.length_cons] at *
    have hstep := applyOp_invariant_step st op h1 (by omega)
    exact ih (st.applyOp op) hstep.1 (by omega)

theorem applyOp_preserves_indent (st : Sys) (op : Op) (i : Nat) (t : Timer)
    (h : st.timers[i]? = some t) :
    ∃ u, (st.applyOp op).timers[i]? = some u ∧ u.indent = t.indent := by
  have hi : i < st.timers.length := (List.getElem?_eq_some.mp h).1
  cases op with
  | new now file modulePath line name info =>
    refine ⟨t, ?_, rfl⟩
    simp only [Sys.applyOp, Sys.newTimer]
    rw [List.getElem?_append_left hi]
    exact h
  | lap id now args =>
    simp only [Sys.applyOp, Sys.lap]
    cases hid : st.timers[id]? with
    | none => exact ⟨t, h, rfl⟩
    | some v =>
      by_cases hiv : id = i
      · subst hiv
        rw [hid] at h
        cases h
        exact ⟨_, getElem?_set_same _ _ _ _ hid, rfl⟩
      · exact ⟨t, by rw [List.getElem?_set_ne hiv]; exact h, rfl⟩
  | finish id now args =>
    simp only [Sys.applyOp, Sys.finish]
    cases hid : st.timers[id]? with
    | none => exact ⟨t, h, rfl⟩
    | some v =>
      dsimp only
      by_cases hf : v.finished = true
      · rw [if_pos hf]
        exact ⟨t, h, rfl⟩
      · rw [if_neg hf]
        by_cases hiv : id = i
        · subst hiv
          rw [hid] at h
          cases h
          exact ⟨_, getElem?_set_same _ _ _ _ hid, rfl⟩
        · exact ⟨t, by rw [List.getElem?_set_ne hiv]; exact h, rfl⟩
  | dropTimer id now =>
    simp only [Sys.applyOp, Sys.dropTimer, Sys.finish]
    cases hid : st.timers[id]? with
    | none => exact ⟨t, h, rfl⟩
    | some v =>
      dsimp only
      by_cases hf : v.finished = true
      · rw [if_pos hf]
        exact ⟨t, h, rfl⟩
      · rw [if_neg hf]
        by_cases hiv : id = i
        · subst hiv
          rw [hid] at h
          cases h
          exact ⟨_, getElem?_set_same _ _ _ _ hid, rfl⟩
        · exact ⟨t, by rw [List.getElem?_set_ne hiv]; exact h, rfl⟩

theorem foldl_preserves_indent (post : List Op) : ∀ (st : Sys) (i : Nat) (t : Timer),
    st.timers[i]? = some t →
    ∃ u, (post.foldl Sys.applyOp st).timers[i]? = some u ∧ u.indent = t.indent := by
  induction post with
  | nil => intro st i t h; exact ⟨t, h, rfl⟩
  | cons op rest ih =>
    intro st i t h
    obtain ⟨u, hu, hind⟩ := applyOp_preserves_indent st op i t h
    obtain ⟨w, hw, hind2⟩ := ih (st.applyOp op) i u hu
    exact ⟨w, hw, by rw [hind2, hind]⟩

/-- When the targeted timer exists and is not yet finished, `Sys.finish` is
exactly: decrement `NUM_INDENT`, set the flag, append one Finish line. -/
theorem finish_step_eq (st : Sys) (id : Nat) (t : Timer) (now : Nat) (args : Option String)
    (hget : st.timers[id]? = some t) (hfin : t.finished = false) :
    st.finish id now args =
      { numIndent := wrapSub1 st.numIndent
        timers := st.timers.set id { t with finished := true }
        output := st.output ++
          [Line.finishLine t.indent (userMessage t.name t.extraInfo args) (now - t.startTime)] } := by
  unfold Sys.finish
  rw [hget]
  dsimp only
  rw [if_neg (by simp [hfin])]

/-- `Sys.finish` on an already-finished timer changes nothing. -/
theorem finish_of_finished (st : Sys) (id now : Nat) (args : Option String) (t : Timer)
    (hget : st.timers[id]? = some t) (hfin : t.finished = true) :
    st.finish id now args = st := by
  unfold Sys.finish
  rw [hget]
  dsimp only
  rw [if_pos hfin]

/-- When the targeted timer exists, `Sys.lap` is exactly: append one Lap line
with the delta since `last_lap_time`, then overwrite `last_lap_time`. -/
theorem lap_step_eq (st : Sys) (id : Nat) (t : Timer) (now : Nat) (args : Option String)
    (hget : st.timers[id]? = some t) :
    st.lap id now args =
      { st with
        timers := st.timers.set id { t with lastLapTime := now }
        output := st.output ++
          [Line.lap (t.indent + 1) (userMessage t.name t.extraInfo args) (now - t.lastLapTime)] } := by
  unfold Sys.lap
  rw [hget]

/-!
## The claims
-/

/-- C1: For every Timer, calling finish more than once produces exactly one
Finish line: the first finish call sets the `finished` flag to `true`,
decrements the nesting counter, and emits one Finish line; every subsequent
finish call is a no-op that changes no state and emits nothing, so the flag
transitions false → true exactly once per Timer instance. -/
theorem finish_idempotent_once (st : Sys) (id : Nat) (t : Timer) (now now2 : Nat)
    (args args2 : Option String)
    (hget : st.timers[id]? = some t) (hfin : t.finished = false) :
    (st.finish id now args).timers[id]? = some { t with finished := true }
    ∧ (st.finish id now args).numIndent = wrapSub1 st.numIndent
    ∧ (st.finish id now args).output = st.output ++
        [Line.finishLine t.indent (userMessage t.name t.extraInfo args) (now - t.startTime)]
    ∧ (st.finish id now args).finish id now2 args2 = st.finish id now args := by
  have hstep := finish_step_eq st id t now args hget hfin
  have hget2 : (st.finish id now args).timers[id]? = some { t with finished := true } := by
    rw [hstep]
    exact getElem?_set_same _ _ _ _ hget
  exact ⟨hget2, by rw [hstep], by rw [hstep],
    finish_of_finished _ id now2 args2 _ hget2 rfl⟩

theorem finish_idempotent_once_witness :
    ((Sys.mk 7 [Timer.mk 3 5 "m" "f" 1 "T" 2 false none] []).finish 0 10 none).timers[0]? =
        some (Timer.mk 3 5 "m" "f" 1 "T" 2 true none)
    ∧ ((Sys.mk 7 [Timer.mk 3 5 "m" "f" 1 "T" 2 false none] []).finish 0 10 none).numIndent = 6
    ∧ ((Sys.mk 7 [Timer.mk 3 5 "m" "f" 1 "T" 2 false none] []).finish 0 10 none).output =
        [Line.finishLine 2 "T" 7]
    ∧ (((Sys.mk 7 [Timer.mk 3 5 "m" "f" 1 "T" 2 false none] []).finish 0 10 none).finish 0 20
          (some "x")) =
        (Sys.mk 7 [Timer.mk 3 5 "m" "f" 1 "T" 2 false none] []).finish 0 10 none :=
  finish_idempotent_once (Sys.mk 7 [Timer.mk 3 5 "m" "f" 1 "T" 2 false none] []) 0
    (Timer.mk 3 5 "m" "f" 1 "T" 2 false none) 10 20 none (some "x") rfl rfl

/-- C2: Dropping a Timer runs the very same finalize logic as `finish(None)`
(the `Drop` impl literally calls `self.finish(None)`): if the timer was not
yet finished it produces exactly one Finish line whose elapsed time is
measured from `start_time`, and a further drop emits nothing; if finish was
already called, dropping emits nothing and changes nothing. -/
theorem drop_runs_finalize_once (st : Sys) (id : Nat) (t : Timer) (now now2 : Nat)
    (hget : st.timers[id]? = some t) :
    st.dropTimer id now = st.finish id now none
    ∧ (t.finished = false →
        (st.dropTimer id now).output = st.output ++
          [Line.finishLine t.indent (userMessage t.name t.extraInfo none) (now - t.startTime)]
        ∧ (st.dropTimer id now).dropTimer id now2 = st.dropTimer id now)
    ∧ (t.finished = true → st.dropTimer id now = st) := by
  refine ⟨rfl, ?_, ?_⟩
  · intro hfin
    have hstep := finish_step_eq st id t now none hget hfin
    have hget2 : (st.finish id now none).timers[id]? = some { t with finished := true } := by
      rw [hstep]
      exact getElem?_set_same _ _ _ _ hget
    exact ⟨by show (st.finish id now none).output = _; rw [hstep],
      finish_of_finished _ id now2 none _ hget2 rfl⟩
  · intro hfin
    exact finish_of_finished _ id now none _ hget hfin

theorem drop_runs_finalize_once_witness :
    (Sys.mk 7 [Timer.mk 3 5 "m" "f" 1 "T" 2 false none] []).dropTimer 0 10 =
        (Sys.mk 7 [Timer.mk 3 5 "m" "f" 1 "T" 2 false none] []).finish 0 10 none
    ∧ (Timer.finished (Timer.mk 3 5 "m" "f" 1 "T" 2 false none) = false →
        ((Sys.mk 7 [Timer.mk 3 5 "m" "f" 1 "T" 2 false none] []).dropTimer 0 10).output =
          [Line.finishLine 2 "T" 7]
        ∧ (((Sys.mk 7 [Timer.mk 3 5 "m" "f" 1 "T" 2 false none] []).dropTimer 0 10).dropTimer 0 20) =
            (Sys.mk 7 [Timer.mk 3 5 "m" "f" 1 "T" 2 false none] []).dropTimer 0 10)
    ∧ (Timer.finished (Timer.mk 3 5 "m" "f" 1 "T" 2 false none) = true →
        (Sys.mk 7 [Timer.mk 3 5 "m" "f" 1 "T" 2 false none] []).dropTimer 0 10 =
          Sys.mk 7 [Timer.mk 3 5 "m" "f" 1 "T" 2 false none] []) :=
  drop_runs_finalize_once (Sys.mk 7 [Timer.mk 3 5 "m" "f" 1 "T" 2 false none] []) 0
    (Timer.mk 3 5 "m" "f" 1 "T" 2 false none) 10 20 rfl

/-- C5: Every lap call computes the delta since `last_lap_time` (seeded with
the construction instant, so the first lap measures from construction), emits
one Lap line showing that delta — not the time since start — then sets
`last_lap_time` to the current instant; it never modifies the `finished` flag
nor the nesting counter, and any number of lap calls is permitted. -/
theorem lap_emits_delta (st : Sys) (id : Nat) (t : Timer) (now : Nat) (args : Option String)
    (hget : st.timers[id]? = some t) :
    (st.lap id now args).output = st.output ++
      [Line.lap (t.indent + 1) (userMessage t.name t.extraInfo args) (now - t.lastLapTime)]
    ∧ (st.lap id now args).timers[id]? = some { t with lastLapTime := now }
    ∧ ((st.lap id now args).timers[id]?).map Timer.finished = some t.finished
    ∧ (st.lap id now args).numIndent = st.numIndent
    ∧ (∀ now0 f m ln nm info,
        (st.newTimer now0 f m ln nm info).timers[st.timers.length]? =
          some (Timer.mk now0 now0 m f ln nm st.numIndent false info)) := by
  have hstep := lap_step_eq st id t now args hget
  have hget2 : (st.lap id now args).timers[id]? = some { t with lastLapTime := now } := by
    rw [hstep]
    exact getElem?_set_same _ _ _ _ hget
  refine ⟨by rw [hstep], hget2, by rw [hget2]; rfl, by rw [hstep], ?_⟩
  intro now0 f m ln nm info
  exact (newTimer_effects st now0 f m ln nm info).2.2

theorem lap_emits_delta_witness :
    ((Sys.mk 7 [Timer.mk 3 5 "m" "f" 1 "T" 2 false none] []).lap 0 12 (some "p")).output =
      [Line.lap 3 "T, p" 7] :=
  (lap_emits_delta (Sys.mk 7 [Timer.mk 3 5 "m" "f" 1 "T" 2 false none] []) 0
    (Timer.mk 3 5 "m" "f" 1 "T" 2 false none) 12 (some "p") rfl).1

/-- C10: Calling lap on a Timer after finish has already been called
(`finished = true`) still emits a Lap line and still advances
`last_lap_time`; the `finished` flag gates only finalization — `finish` is
now inert while `lap` is not. -/
theorem lap_after_finished (st : Sys) (id : Nat) (t : Timer) (now : Nat) (args : Option String)
    (hget : st.timers[id]? = some t) (hfin : t.finished = true) :
    (st.lap id now args).output = st.output ++
      [Line.lap (t.indent + 1) (userMessage t.name t.extraInfo args) (now - t.lastLapTime)]
    ∧ (st.lap id now args).timers[id]? = some { t with lastLapTime := now }
    ∧ ((st.lap id now args).timers[id]?).map Timer.finished = some true
    ∧ st.finish id now args = st := by
  have hstep := lap_step_eq st id t now args hget
  have hget2 : (st.lap id now args).timers[id]? = some { t with lastLapTime := now } := by
    rw [hstep]
    exact getElem?_set_same _ _ _ _ hget
  exact ⟨by rw [hstep], hget2, by rw [hget2]; simp [hfin],
    finish_of_finished _ id now args _ hget hfin⟩

theorem lap_after_finished_witness :
    ((Sys.mk 7 [Timer.mk 3 5 "m" "f" 1 "T" 2 true none] []).lap 0 12 none).output =
      [Line.lap 3 "T" 7] :=
  (lap_after_finished (Sys.mk 7 [Timer.mk 3 5 "m" "f" 1 "T" 2 true none] []) 0
    (Timer.mk 3 5 "m" "f" 1 "T" 2 true none) 12 none rfl rfl).1

/-- C4: The duration renderer returns `"{seconds}.{milliseconds:03}s"` when
the duration is at least one second, else `"{millis}.{micros:03}ms"` when the
whole-millisecond part is positive, else `"{micros}.{nanos:03}µs"` when the
whole-microsecond part is positive, else `"{nanos}ns"`; in particular 0ns,
500ns, 1500ns, 2500000ns and 1200000000ns render to "0ns", "500ns",
"1.500µs", "2.500ms" and "1.200s". -/
theorem elapsedFormat_unit_scaling (ns : Nat) :
    (1000000000 ≤ ns →
      elapsedFormat ns =
        toString (ns / 1000000000) ++ "." ++ pad3 (ns % 1000000000 / 1000000) ++ "s")
    ∧ (ns < 1000000000 → 1000000 ≤ ns →
      elapsedFormat ns = toString (ns / 1000000) ++ "." ++ pad3 (ns / 1000 % 1000) ++ "ms")
    ∧ (ns < 1000000 → 1000 ≤ ns →
      elapsedFormat ns = toString (ns / 1000) ++ "." ++ pad3 (ns % 1000) ++ "µs")
    ∧ (ns < 1000 → elapsedFormat ns = toString ns ++ "ns")
    ∧ elapsedFormat 0 = "0ns"
    ∧ elapsedFormat 500 = "500ns"
    ∧ elapsedFormat 1500 = "1.500µs"
    ∧ elapsedFormat 2500000 = "2.500ms"
    ∧ elapsedFormat 1200000000 = "1.200s" := by
  refine ⟨?_, ?_, ?_, ?_, by decide, by decide, by decide, by decide, by decide⟩
  · intro h
    simp only [elapsedFormat]
    rw [if_pos (by omega)]
  · intro h1 h2
    have e0 : ns % 1000000000 = ns := Nat.mod_eq_of_lt h1
    simp only [elapsedFormat]
    rw [if_neg (by omega), if_pos (by omega)]
    simp only [e0]
  · intro h1 h2
    have e0 : ns % 1000000000 = ns := Nat.mod_eq_of_lt (by omega)
    have e1 : ns / 1000 % 1000 = ns / 1000 := Nat.mod_eq_of_lt (by omega)
    simp only [elapsedFormat]
    rw [if_neg (by omega), if_neg (by omega), if_pos (by omega)]
    simp only [e0, e1]
  · intro h1
    have e0 : ns % 1000000000 = ns := Nat.mod_eq_of_lt (by omega)
    simp only [elapsedFormat]
    rw [if_neg (by omega), if_neg (by omega), if_neg (by omega)]
    simp only [e0]

theorem run_append_cons (pre : List Op) (op : Op) (post : List Op) :
    Sys.run (pre ++ op :: post) = post.foldl Sys.applyOp ((Sys.run pre).applyOp op) := by
  simp [Sys.run, List.foldl_append]

/-- C6: After any sequence of operations (of length below `2^64`, the range
of the `usize` counter), `NUM_INDENT` equals the number of
constructed-but-not-yet-finalized Timers: construction increments it by one
and each timer's first finalize decrements it by one.  Moreover each Timer's
`indent` field is the counter's value read at that Timer's construction,
before its own increment. -/
theorem numIndent_tracks_active (ops : List Op) (h : ops.length < USIZE) :
    (Sys.run ops).numIndent = (Sys.run ops).active
    ∧ (∀ pre now f m ln nm info post, ops = pre ++ Op.new now f m ln nm info :: post →
        ∃ t, (Sys.run ops).timers[(Sys.run pre).timers.length]? = some t
          ∧ t.indent = (Sys.run pre).numIndent) := by
  constructor
  · refine foldl_invariant ops Sys.init rfl ?_
    have : Sys.init.active = 0 := rfl
    omega
  · intro pre now f m ln nm info post heq
    subst heq
    rw [run_append_cons]
    have hmid := (newTimer_effects (Sys.run pre) now f m ln nm info).2.2
    obtain ⟨u, hu, hind⟩ := foldl_preserves_indent post _ _ _ hmid
    exact ⟨u, hu, hind⟩

theorem numIndent_tracks_active_witness :
    (Sys.run [Op.new 0 "f" "m" 1 "A" none, Op.new 1 "f" "m" 2 "B" none,
        Op.finish 1 5 none]).numIndent =
      (Sys.run [Op.new 0 "f" "m" 1 "A" none, Op.new 1 "f" "m" 2 "B" none,
        Op.finish 1 5 none]).active :=
  (numIndent_tracks_active
    [Op.new 0 "f" "m" 1 "A" none, Op.new 1 "f" "m" 2 "B" none, Op.finish 1 5 none]
    (by decide)).1

/-- C3 counterexample: the check-and-set in `Timer::finish` is NOT a single
atomic compare-and-set — it is a separate `load` followed later by a `store`.
In the fine-grained interleaving of two concurrent `finish` calls where both
loads run before either store (`racySchedule`), BOTH threads finalize: two
Finish lines are printed and the nesting counter is decremented twice (from 2
to 0), contradicting the claimed exactly-one finalize. -/
theorem finish_race_two_finalizes :
    (runInterleaved (ConcState.mk false 2 0) finishBody finishBody racySchedule).printed = 2
    ∧ (runInterleaved (ConcState.mk false 2 0) finishBody finishBody racySchedule).numIndent
        = 0 := by
  decide

/-- C3 (amended): `Timer::finish` guards finalization with a separate atomic
load of `finished` followed by an atomic store, not a single compare-and-set;
when the two finish calls do not interleave (either serialization of the two
bodies — the only executions reachable in safe Rust, since `Timer` holds an
`Rc` and is not `Sync`), exactly one finalize executes: one Finish line is
printed and the counter is decremented exactly once. -/
theorem finish_serialized_single_finalize (n k : Nat) (h1 : 0 < n) (h2 : n < USIZE) :
    runInterleaved (ConcState.mk false n k) finishBody finishBody serialAB =
      ConcState.mk true (n - 1) (k + 1)
    ∧ runInterleaved (ConcState.mk false n k) finishBody finishBody serialBA =
      ConcState.mk true (n - 1) (k + 1) := by
  have hw : wrapSub1 n = n - 1 := by
    simp only [wrapSub1, USIZE] at h2 ⊢
    omega
  constructor <;>
    simp [runInterleaved, microStep, finishBody, serialAB, serialBA, hw]

theorem finish_serialized_single_finalize_witness :
    runInterleaved (ConcState.mk false 1 0) finishBody finishBody serialAB =
      ConcState.mk true 0 1
    ∧ runInterleaved (ConcState.mk false 1 0) finishBody finishBody serialBA =
      ConcState.mk true 0 1 :=
  finish_serialized_single_finalize 1 0 (by decide) (by decide)

theorem foldl_pushMarked (l : List String) : ∀ (acc : List RStmt) (k : Nat),
    (l.foldl pushMarked (acc, k)).1 =
      acc ++ ((List.enumFrom k l).map (fun p =>
        [RStmt.orig p.2,
         RStmt.markElapsed ("L" ++ toString p.1 ++ ": " ++ truncate p.2 LENGTH)])).flatten := by
  induction l with
  | nil => intro acc k; simp
  | cons s rest ih =>
    intro acc k
    simp only [List.foldl_cons, List.enumFrom, List.map_cons, List.flatten]
    rw [show pushMarked (acc, k) s =
      (acc ++ [RStmt.orig s,
        RStmt.markElapsed ("L" ++ toString k ++ ": " ++ truncate s LENGTH)], k + 1) from rfl]
    rw [ih]
    simp [List.append_assoc]

theorem join_marks_filterMap (l : List (Nat × String)) :
    ((l.map (fun p =>
      [RStmt.orig p.2,
       RStmt.markElapsed ("L" ++ toString p.1 ++ ": " ++ truncate p.2 LENGTH)])).flatten).filterMap
        origText = l.map Prod.snd := by
  induction l with
  | nil => rfl
  | cons p rest ih =>
    simp [List.filterMap_cons, origText, ih]

/-- C7: For every non-empty statement sequence, the rewritten sequence is the
accumulator-construction (setup) statements, then for each non-final
statement the original statement followed by exactly one mark-call, then the
final statement rebound into the synthetic `return_stmt` temporary followed
by one mark-call and an explicit return of that temporary; extracting the
original statements from the result returns the input in order, so relative
order is preserved and no original statement is dropped. -/
theorem rewrite_stmts_shape (name : String) (s1 : List String) (lastS : String) :
    rewrite_stmts name (s1 ++ [lastS]) =
      setupStmts name ++
        ((s1.enum).map (fun p =>
          [RStmt.orig p.2,
           RStmt.markElapsed ("L" ++ toString p.1 ++ ": " ++ truncate p.2 LENGTH)])).flatten ++
        [RStmt.letReturnStmt lastS, RStmt.markElapsed (truncate lastS LENGTH),
          RStmt.retReturnStmt]
    ∧ (rewrite_stmts name (s1 ++ [lastS])).filterMap origText = s1 ++ [lastS] := by
  have hmain : rewrite_stmts name (s1 ++ [lastS]) =
      setupStmts name ++
        ((s1.enum).map (fun p =>
          [RStmt.orig p.2,
           RStmt.markElapsed ("L" ++ toString p.1 ++ ": " ++ truncate p.2 LENGTH)])).flatten ++
        [RStmt.letReturnStmt lastS, RStmt.markElapsed (truncate lastS LENGTH),
          RStmt.retReturnStmt] := by
    simp only [rewrite_stmts]
    rw [List.dropLast_concat, List.getLast?_concat]
    dsimp only
    rw [foldl_pushMarked]
    rw [List.enum]
  refine ⟨hmain, ?_⟩
  rw [hmain]
  simp only [List.filterMap_append]
  rw [List.enum, join_marks_filterMap]
  simp [setupStmts, origText, List.enum_map_snd]

/-- C8: The statement-truncation function first renders the statement with
embedded newlines replaced by spaces; if the rendered text exceeds the fixed
length L = 45 characters (counted as characters), the result is the first 45
characters followed by the marker "..." (so 48 characters in total); at or
under 45 characters the rendered text is returned unchanged, with no
marker. -/
theorem truncate_spec (stmt : String) :
    LENGTH = 45
    ∧ (45 < (replaceNewlines stmt).length →
        (truncate stmt LENGTH).data = (replaceNewlines stmt).data.take 45 ++ ['.', '.', '.']
        ∧ (truncate stmt LENGTH).length = 48)
    ∧ ((replaceNewlines stmt).length ≤ 45 → truncate stmt LENGTH = replaceNewlines stmt) := by
  refine ⟨rfl, ?_, ?_⟩
  · intro h
    have hstep : truncate stmt LENGTH =
        String.mk ((replaceNewlines stmt).toList.take 45) ++ "..." := by
      unfold truncate
      rw [if_pos (by simpa [LENGTH] using h)]
      simp [LENGTH]
    constructor
    · rw [hstep]
      rfl
    · rw [hstep]
      show ((replaceNewlines stmt).toList.take 45 ++ ['.', '.', '.']).length = 48
      simp only [List.length_append, List.length_take, List.length_cons, List.length_nil]
      have : (replaceNewlines stmt).toList.length = (replaceNewlines stmt).length := rfl
      omega
  · intro h
    unfold truncate
    rw [if_neg (by simp [LENGTH]; omega)]

theorem truncate_spec_witness :
    45 < (replaceNewlines "0123456789012345678901234567890123456789012345678").length
    ∧ (truncate "0123456789012345678901234567890123456789012345678" LENGTH).data =
        (replaceNewlines "0123456789012345678901234567890123456789012345678").data.take 45
          ++ ['.', '.', '.']
    ∧ (truncate "0123456789012345678901234567890123456789012345678" LENGTH).length = 48 :=
  ⟨by decide,
    ((truncate_spec "0123456789012345678901234567890123456789012345678").2.1 (by decide)).1,
    ((truncate_spec "0123456789012345678901234567890123456789012345678").2.1 (by decide)).2⟩

/-- C9: The statement rewriter accepts exactly three input shapes — a plain
function, a trait method with a default body, or an inherent-impl method —
and rewrites them; applied to any other construct (including a trait method
signature without a default body) it raises the hard build-time panic
"`timed` only works on functions" rather than silently passing the input
through. -/
theorem timed_dispatch :
    (∀ name stmts, timed (.itemFn name stmts) = .rewritten (rewrite_stmts name stmts))
    ∧ (∀ name body, timed (.traitItemFn name (some body)) =
        .rewritten (rewrite_stmts name body))
    ∧ (∀ name stmts, timed (.implItemFn name stmts) = .rewritten (rewrite_stmts name stmts))
    ∧ (∀ input, timed input = .buildFailure "`timed` only works on functions" ↔
        (input = .otherConstruct ∨ ∃ name, input = .traitItemFn name none)) := by
  refine ⟨fun _ _ => rfl, fun _ _ => rfl, fun _ _ => rfl, ?_⟩
  intro input
  cases input with
  | itemFn n s => simp [timed]
  | traitItemFn n b =>
    cases b with
    | none => simp [timed]
    | some body => simp [timed]
  | implItemFn n s => simp [timed]
  | otherConstruct => simp [timed]

theorem elapsedFormat_unit_scaling_witness :
    (1000000000 ≤ 1200000000
      ∧ elapsedFormat 1200000000 =
          toString (1200000000 / 1000000000) ++ "." ++
            pad3 (1200000000 % 1000000000 / 1000000) ++ "s")
    ∧ (2500000 < 1000000000 ∧ 1000000 ≤ 2500000
      ∧ elapsedFormat 2500000 =
          toString (2500000 / 1000000) ++ "." ++ pad3 (2500000 / 1000 % 1000) ++ "ms") :=
  ⟨⟨by decide, (elapsedFormat_unit_scaling 1200000000).1 (by decide)⟩,
   by decide, by decide, (elapsedFormat_unit_scaling 2500000).2.1 (by decide) (by decide)⟩

end AleoStd
